import Mathlib

/-!
Verification development for the `vex` VEX-file parser (src/vexfile.py).

Python strings are embedded as `List Char`; every operation used by the
source (`str.strip`, `str.split`, `str.join`, `in`, `count`, slicing) is
given an executable Lean counterpart, and the classes `Entry`,
`Definition`/`Scan`, `Section` and `Vex` are embedded as structures whose
ordered dictionaries become association lists (Python 3.7 dicts preserve
insertion order and in-place replacement keeps a key's position).
Fallible Python code (raised exceptions) is embedded with `Except`.
-/

namespace VexPy

/-- Python error classes raised by the code paths modelled here.
`valueError` carries the message string, since the source distinguishes
its `ValueError`s only by message. -/
inductive PyErr where
  | indexError : PyErr
  | assertionError : PyErr
  | valueError : List Char → PyErr
  | attributeError : PyErr
  | nameError : PyErr
  | fileExistsError : PyErr
deriving DecidableEq, Repr

/-! ## Python string operations over `List Char` -/

/-- Python `str.strip()` (both-sides whitespace trim; the inputs relevant
here only use the ASCII whitespace recognised by `Char.isWhitespace`). -/
def pyStrip (l : List Char) : List Char :=
  ((l.dropWhile Char.isWhitespace).reverse.dropWhile Char.isWhitespace).reverse

/-- Python `str.split(c)` for a one-character separator: the pieces between
occurrences of `c`, in order; splitting the empty string gives `[[]]`. -/
def splitOnChar (c : Char) : List Char → List (List Char)
  | [] => [[]]
  | a :: as =>
    let r := splitOnChar c as
    if a = c then [] :: r
    else
      match r with
      | [] => [[a]]
      | h :: t => (a :: h) :: t

/-- Python `c.join(parts)` for a one-character separator. -/
def intercalateChar (c : Char) : List (List Char) → List Char
  | [] => []
  | [p] => p
  | p :: q :: rest => p ++ c :: intercalateChar c (q :: rest)

/-- Python `pat in s` substring containment. -/
def isSubstr (pat : List Char) : List Char → Bool
  | [] => pat.isEmpty
  | s@(_ :: rest) => pat.isPrefixOf s || isSubstr pat rest

/-! ## The Entry model (class `Entry` and enum `EntryType`) -/

/-- Enum `EntryType`: a line is a comment, a `key = value` parameter, or a
`ref $key = value` variable. -/
inductive EntryType where
  | comment : EntryType
  | parameter : EntryType
  | variable : EntryType
deriving DecidableEq, Repr

/-- The value of an `Entry`: Python stores either a plain string or a list
of strings (when the raw value contained a `:`). -/
inductive EntryValue where
  | single : List Char → EntryValue
  | list : List (List Char) → EntryValue
deriving DecidableEq, Repr

/-- Class `Entry`: `{type, key, value}`.  `key` is an `Option` because
comment entries store Python `None` there. -/
structure Entry where
  type : EntryType
  key : Option (List Char)
  value : EntryValue
deriving DecidableEq, Repr

/-- Message of the `ValueError` raised by the `Entry.key` setter. -/
def msgKeyComment : List Char := "key must be None for comment entries".toList

/-- `Entry.__init__`: stores the three fields; the `key` property setter
raises `ValueError` when a comment entry is given a non-`None` key
(that is the only validation the constructor can fail). -/
def mkEntry (t : EntryType) (k : Option (List Char)) (v : EntryValue) :
    Except PyErr Entry :=
  match t, k with
  | .comment, some _ => .error (.valueError msgKeyComment)
  | _, _ => .ok ⟨t, k, v⟩

/-- The value-shaping step of `Entry.entry_from_text`: a raw value
containing `:` is split into a list, otherwise kept as a single string. -/
def mkVal (v : List Char) : EntryValue :=
  if ':' ∈ v then .list (splitOnChar ':' v) else .single v

/-- Last stage of `Entry.entry_from_text`, from the trimmed raw key and the
terminator-stripped value: the `'ref ' in key` test decides variable vs
parameter, a variable key must contain exactly one `$` (`assert`), and the
true variable key is the trimmed text after the `$`. -/
def entryFinish (key1 value2 : List Char) : Except PyErr Entry :=
  if isSubstr "ref ".toList key1 then
    if key1.count '$' ≠ 1 then .error .assertionError
    else mkEntry .variable (some (pyStrip ((splitOnChar '$' key1).getD 1 []))) (mkVal value2)
  else mkEntry .parameter (some key1) (mkVal value2)

/-- Middle stage of `Entry.entry_from_text`: `value[-1]` raises
`IndexError` on an empty value; a trailing `;` is dropped. -/
def entryKV (key1 value1 : List Char) : Except PyErr Entry :=
  match value1.getLast? with
  | none => .error .indexError
  | some last => entryFinish key1 (if last = ';' then value1.dropLast else value1)

/-- `Entry.entry_from_text`: `text.strip()[0]` raises `IndexError` on a
blank line; a leading `*` makes a comment whose value is the stripped text
after the marker; otherwise `assert text.count('=') >= 1`, the line is
split on every `=`, the head is the raw key and the tail is re-joined with
`=` (so effectively everything after the first `=`), both trimmed. -/
def entry_from_text (t : List Char) : Except PyErr Entry :=
  match pyStrip t with
  | [] => .error .indexError
  | c :: rest =>
    if c = '*' then mkEntry .comment none (.single rest)
    else if t.count '=' < 1 then .error .assertionError
    else
      let parts := splitOnChar '=' t
      entryKV (pyStrip (parts.headD [])) (pyStrip (intercalateChar '=' parts.tail))

/-! ## Ordered dictionaries as association lists

Python 3.7+ `dict` / `OrderedDict` semantics: `d[k] = v` replaces in place
when `k` is present (keeping the key's position) and appends otherwise. -/

/-- `d[k]` lookup returning `none` for an absent key. -/
def alGet {K V : Type} [DecidableEq K] : List (K × V) → K → Option V
  | [], _ => none
  | (k', v) :: t, k => if k' = k then some v else alGet t k

/-- `d[k] = v`: replace the first binding of `k` in place, else append. -/
def alSet {K V : Type} [DecidableEq K] : List (K × V) → K → V → List (K × V)
  | [], k, v => [(k, v)]
  | (k', v') :: t, k, v =>
    if k' = k then (k', v) :: t else (k', v') :: alSet t k v

/-- Keys of the `Definition`/`Section`/`Vex` dictionaries.  Python uses the
entry's key attribute directly, which is `None` for programmatically built
keyless entries, so the dictionary key type is `Option (List Char)`. -/
abbrev PyKey := Option (List Char)

/-- Synthetic comment key `f'comment-{n}'`. -/
def commentKey (n : Nat) : List Char := "comment-".toList ++ (toString n).toList

/-! ## Definition and Scan -/

/-- A value stored in `Definition._entries`: one `Entry`, or the list the
second duplicate insertion promotes it to. -/
inductive DefVal where
  | one : Entry → DefVal
  | many : List Entry → DefVal
deriving DecidableEq, Repr

/-- Classes `Definition` and `Scan`.  `Scan` subclasses `Definition`
changing only the serializer's keywords, embedded here as the `isScan`
flag.  `nComments` is `self._number_comments`. -/
structure Definition where
  name : List Char
  entries : List (PyKey × DefVal)
  nComments : Nat
  isScan : Bool
deriving DecidableEq, Repr

/-- `Definition.add_entry`: comments get the synthetic key
`comment-<n>` (counter incremented first); a duplicate non-comment key
promotes the stored value to a two-element list, a later duplicate appends
to that list, and a fresh key is appended as a single entry. -/
def Definition.add_entry (d : Definition) (e : Entry) : Definition :=
  if e.type = .comment then
    { d with nComments := d.nComments + 1,
             entries := alSet d.entries (some (commentKey (d.nComments + 1))) (.one e) }
  else
    match alGet d.entries e.key with
    | some (.one e0) => { d with entries := alSet d.entries e.key (.many [e0, e]) }
    | some (.many l) => { d with entries := alSet d.entries e.key (.many (l ++ [e])) }
    | none => { d with entries := alSet d.entries e.key (.one e) }

/-- `Definition.keys()` (insertion-ordered). -/
def Definition.keys (d : Definition) : List PyKey := d.entries.map Prod.fst

/-! ## Section -/

/-- A value stored in `Section._definitions`: a sealed `Definition`/`Scan`
or a stray `Entry`. -/
inductive SecVal where
  | defn : Definition → SecVal
  | entry : Entry → SecVal
deriving DecidableEq, Repr

/-- Class `Section`. -/
structure Section where
  name : List Char
  children : List (PyKey × SecVal)
  nComments : Nat
deriving DecidableEq, Repr

/-- `Section.add_definition` on a `Definition` argument: keyed by the
definition's name, replacing any previous child under that name. -/
def Section.add_definition_def (s : Section) (d : Definition) : Section :=
  { s with children := alSet s.children (some d.name) (.defn d) }

/-- `Section.add_definition` on an `Entry` argument: comments get a
synthetic key, other entries are keyed by their own key — in both cases a
plain dictionary assignment, replacing any previous child. -/
def Section.add_definition_entry (s : Section) (e : Entry) : Section :=
  if e.type = .comment then
    { s with nComments := s.nComments + 1,
             children := alSet s.children (some (commentKey (s.nComments + 1))) (.entry e) }
  else
    { s with children := alSet s.children e.key (.entry e) }

/-- `Section.keys()` (insertion-ordered). -/
def Section.keys (s : Section) : List PyKey := s.children.map Prod.fst

/-! ## Vex (the document) -/

/-- A value stored in `Vex._sections`: a sealed `Section` or a top-level
`Entry` (the parser never routes a bare `Definition` here). -/
inductive VexVal where
  | sec : Section → VexVal
  | entry : Entry → VexVal
deriving DecidableEq, Repr

/-- Class `Vex`. -/
structure Vex where
  name : List Char
  sections : List (PyKey × VexVal)
  nComments : Nat
deriving DecidableEq, Repr

/-- `Vex.add_section` on a `Section` argument: keyed by its name, a plain
dictionary assignment replacing any previous child. -/
def Vex.add_section_sec (v : Vex) (s : Section) : Vex :=
  { v with sections := alSet v.sections (some s.name) (.sec s) }

/-- `Vex.add_section` on an `Entry` argument. -/
def Vex.add_section_entry (v : Vex) (e : Entry) : Vex :=
  if e.type = .comment then
    { v with nComments := v.nComments + 1,
             sections := alSet v.sections (some (commentKey (v.nComments + 1))) (.entry e) }
  else
    { v with sections := alSet v.sections e.key (.entry e) }

/-- `Vex.keys()` (insertion-ordered). -/
def Vex.keys (v : Vex) : List PyKey := v.sections.map Prod.fst

/-! ## Serializer (`__str__` methods) -/

/-- Python `f'{self.key}'`: `None` renders as the string `None`. -/
def pyShowKey : PyKey → List Char
  | some k => k
  | none => "None".toList

/-- Comma-space separation used by Python list `repr`. -/
def pyReprSep : List (List Char) → List Char
  | [] => []
  | [p] => p
  | p :: q :: rest => p ++ ", ".toList ++ pyReprSep (q :: rest)

/-- Python `repr` of a list of strings, used when a comment entry's value
is a list and the f-string stringifies it (unreachable from parsing;
quote-escaping corner cases are not modelled). -/
def pyReprStrList (l : List (List Char)) : List Char :=
  '[' :: pyReprSep (l.map (fun s => '\'' :: s ++ ['\''])) ++ [']']

/-- `f'{self.value}'` for the comment branch of `Entry.__str__`. -/
def pyShowVal : EntryValue → List Char
  | .single s => s
  | .list l => pyReprStrList l

/-- `':'.join(self.value)` when the value is a list, else the string. -/
def pyJoinVal : EntryValue → List Char
  | .single s => s
  | .list l => intercalateChar ':' l

/-- `Entry.__str__(heading_spaces)`: comments render as `*value\n` with no
indentation; parameters as `key = value;\n` and variables as
`ref $key = value;\n`, indented by `heading_spaces` (default 5) spaces. -/
def Entry.toStr (e : Entry) (headingSpaces : Option Nat) : List Char :=
  let s := List.replicate (headingSpaces.getD 5) ' '
  match e.type with
  | .comment => '*' :: pyShowVal e.value ++ ['\n']
  | .variable => s ++ "ref $".toList ++ pyShowKey e.key ++ " = ".toList
      ++ pyJoinVal e.value ++ ";\n".toList
  | .parameter => s ++ pyShowKey e.key ++ " = ".toList
      ++ pyJoinVal e.value ++ ";\n".toList

/-- One stored `Definition` dictionary value rendered in order (a list
value expands to one line per entry). -/
def renderDefVal : DefVal → List Char
  | .one e => e.toStr none
  | .many l => (l.map (fun e => e.toStr none)).flatten

/-- `Definition.__str__` / `Scan.__str__`: header keyword, the entries in
stored order, then the closing keyword. -/
def Definition.toStr (d : Definition) : List Char :=
  (if d.isScan then "scan " else "def ").toList ++ d.name ++ ";\n".toList
    ++ (d.entries.map (fun kv => renderDefVal kv.2)).flatten
    ++ (if d.isScan then "endscan;\n" else "enddef;\n").toList

/-- `Section.__str__`: `$name;` then each child in stored order. -/
def Section.toStr (s : Section) : List Char :=
  '$' :: s.name ++ ";\n".toList
    ++ (s.children.map (fun kv =>
          match kv.2 with
          | .defn d => d.toStr
          | .entry e => e.toStr none)).flatten

/-- `Vex.__str__`: each child in stored order; top-level entries are
rendered with zero indentation. -/
def Vex.toStr (v : Vex) : List Char :=
  (v.sections.map (fun kv =>
    match kv.2 with
    | .entry e => e.toStr (some 0)
    | .sec s => s.toStr)).flatten

/-! ## Parser state machine (`Vex.from_file`) -/

/-- Message of the `ValueError` raised when a `def ` or `scan ` line is
scanned while a block is already open (the source uses the same message
for both). -/
def msgNestDef : List Char :=
  "A definition inside a definition is not supported".toList

/-- Message of the `ValueError` raised by `enddef` with no open block. -/
def msgEnddef : List Char := "enddef without a previous def".toList

/-- Message of the `ValueError` raised by `endscan` with no open block. -/
def msgEndscan : List Char := "endscan without a previous scan".toList

/-- The local state of the `from_file` loop: `prev` is `prev_line` (the
continuation buffer, raw physical lines concatenated with their
newlines), plus `current_section`, `current_definition` and the document
under construction. -/
structure PState where
  prev : Option (List Char)
  curSec : Option Section
  curDef : Option Definition
  doc : Vex
deriving DecidableEq, Repr

/-- The routing rule shared by comments and ordinary entries: into the
open block if any, else into the open section, else into the document. -/
def routeEntry (st : PState) (e : Entry) : PState :=
  match st.curDef with
  | some d => { st with curDef := some (d.add_entry e) }
  | none =>
    match st.curSec with
    | some s => { st with curSec := some (s.add_definition_entry e) }
    | none => { st with doc := st.doc.add_section_entry e }

/-- Dispatch of a completed, stripped logical line (`currentline` after
buffer merge and `strip`) over the keyword prefixes, in source order:
`$`, `def `, `enddef`, `scan `, `endscan`, else the entry grammar.
Closing a block while `current_section` is `None` hits
`None.add_definition`, Python's `AttributeError`. -/
def dispatch (st : PState) (cl : List Char) : Except PyErr PState :=
  match cl with
  | [] => .error .indexError
  | c :: rest =>
    if c = '$' then
      .ok { st with
              doc := match st.curSec with
                     | some s => st.doc.add_section_sec s
                     | none => st.doc,
              curSec := some ⟨rest.takeWhile (· ≠ ';'), [], 0⟩ }
    else if cl.take 4 = "def ".toList then
      match st.curDef with
      | some _ => .error (.valueError msgNestDef)
      | none => .ok { st with curDef := some ⟨(cl.drop 4).takeWhile (· ≠ ';'), [], 0, false⟩ }
    else if cl.take 6 = "enddef".toList then
      match st.curDef with
      | none => .error (.valueError msgEnddef)
      | some d =>
        match st.curSec with
        | none => .error .attributeError
        | some s => .ok { st with curSec := some (s.add_definition_def d), curDef := none }
    else if cl.take 5 = "scan ".toList then
      match st.curDef with
      | some _ => .error (.valueError msgNestDef)
      | none => .ok { st with curDef := some ⟨(cl.drop 5).takeWhile (· ≠ ';'), [], 0, true⟩ }
    else if cl.take 7 = "endscan".toList then
      match st.curDef with
      | none => .error (.valueError msgEndscan)
      | some d =>
        match st.curSec with
        | none => .error .attributeError
        | some s => .ok { st with curSec := some (s.add_definition_def d), curDef := none }
    else
      match entry_from_text cl with
      | .error e => .error e
      | .ok e => .ok (routeEntry st e)

/-- One iteration of the `from_file` loop on a raw physical line:
`currentline.strip()[0]` (IndexError on a blank line), the comment test,
the continuation-buffer handling (a line with no `;` is appended to the
buffer), then dispatch of the merged, stripped logical line. -/
def stepLine (st : PState) (line : List Char) : Except PyErr PState :=
  match pyStrip line with
  | [] => .error .indexError
  | c :: _ =>
    if c = '*' then
      match entry_from_text line with
      | .error e => .error e
      | .ok e => .ok (routeEntry st e)
    else if ';' ∈ line then
      dispatch { st with prev := none } (pyStrip (st.prev.getD [] ++ line))
    else
      .ok { st with prev := some (st.prev.getD [] ++ line) }

/-- The fresh state `Vex.__init__`/`from_file` starts from (the document
name plays no role in parsing or serialization). -/
def initState : PState := ⟨none, none, none, ⟨[], [], 0⟩⟩

/-- The `from_file` loop over all physical lines. -/
def stepAll (st : PState) (ls : List (List Char)) : Except PyErr PState :=
  ls.foldlM stepLine st

/-- End-of-input handling of `from_file`: a still-open section is sealed
into the document; a still-open definition is silently dropped. -/
def finalize (st : PState) : Vex :=
  match st.curSec with
  | some s => st.doc.add_section_sec s
  | none => st.doc

/-- `Vex.from_file` on the list of physical lines `readlines` returns. -/
def parseLines (ls : List (List Char)) : Except PyErr Vex :=
  (stepAll initState ls).map finalize

/-- Python `readlines` semantics on a character stream: pieces ending
after each newline, with a final newline-less piece kept when non-empty
(used to re-parse serializer output). -/
def readLines (l : List Char) : List (List Char) :=
  let ps := splitOnChar '\n' l
  ps.dropLast.map (· ++ ['\n']) ++
    (match ps.getLast? with
     | some last => if last = [] then [] else [last]
     | none => [])

/-- `Vex.to_file(filename, overwrite)`: the guard
`(not overwrite) and (os.path.exists(newfile))` references the unbound
name `newfile` (the parameter is `filename`), so whenever
`overwrite=False` Python short-circuit evaluation reaches the unbound
name and raises `NameError` — the existence of the destination
(`pathExists`) is never actually consulted; with `overwrite=True` the
serialized text is written. -/
def to_file (pathExists : Bool) (v : Vex) (overwrite : Bool) :
    Except PyErr (List Char) :=
  if overwrite = false then .error .nameError
  else .ok v.toStr

/-! ## General lemmas -/

instance {ε α : Type} [DecidableEq ε] [DecidableEq α] : DecidableEq (Except ε α) := by
  intro a b
  cases a <;> cases b
  case error.error e f =>
    exact if h : e = f then .isTrue (by rw [h]) else .isFalse (by simp [h])
  case error.ok e x => exact .isFalse (by simp)
  case ok.error x e => exact .isFalse (by simp)
  case ok.ok x y =>
    exact if h : x = y then .isTrue (by rw [h]) else .isFalse (by simp [h])

theorem alGet_alSet_self {K V : Type} [DecidableEq K] (l : List (K × V)) (k : K) (v : V) :
    alGet (alSet l k v) k = some v := by
  induction l with
  | nil => simp [alGet, alSet]
  | cons p t ih =>
    obtain ⟨k', v'⟩ := p
    by_cases h : k' = k <;> simp [alGet, alSet, h, ih]

theorem keys_alSet_present {K V : Type} [DecidableEq K] (l : List (K × V)) (k : K) (v w : V)
    (h : alGet l k = some w) : (alSet l k v).map Prod.fst = l.map Prod.fst := by
  induction l with
  | nil => simp [alGet] at h
  | cons p t ih =>
    obtain ⟨k', v'⟩ := p
    by_cases hk : k' = k
    · simp [alSet, hk]
    · simp [alGet, hk] at h
      simp [alSet, hk, ih h]

theorem alSet_absent {K V : Type} [DecidableEq K] (l : List (K × V)) (k : K) (v : V)
    (h : alGet l k = none) : alSet l k v = l ++ [(k, v)] := by
  induction l with
  | nil => simp [alSet]
  | cons p t ih =>
    obtain ⟨k', v'⟩ := p
    by_cases hk : k' = k
    · simp [alGet, hk] at h
    · simp [alGet, hk] at h
      simp [alSet, hk, ih h]

theorem keys_alSet {K V : Type} [DecidableEq K] (l : List (K × V)) (k : K) (v : V) :
    (alSet l k v).map Prod.fst =
      if (alGet l k).isSome then l.map Prod.fst else l.map Prod.fst ++ [k] := by
  cases hget : alGet l k with
  | some w =>
    simp only [Option.isSome_some, if_true]
    exact keys_alSet_present l k v w hget
  | none =>
    simp only [Option.isSome_none, Bool.false_eq_true, if_false]
    rw [alSet_absent l k v hget]
    simp

theorem splitOnChar_ne_nil (c : Char) (l : List Char) : splitOnChar c l ≠ [] := by
  cases l with
  | nil => simp [splitOnChar]
  | cons a as =>
    unfold splitOnChar
    by_cases hac : a = c
    · simp [hac]
    · simp only [if_neg hac]
      cases hr : splitOnChar c as <;> simp [hr]

theorem intercalateChar_splitOnChar (c : Char) (l : List Char) :
    intercalateChar c (splitOnChar c l) = l := by
  induction l with
  | nil => rfl
  | cons a as ih =>
    unfold splitOnChar
    by_cases hac : a = c
    · subst hac
      simp only [if_pos rfl]
      cases hr : splitOnChar a as with
      | nil => exact absurd hr (splitOnChar_ne_nil a as)
      | cons h t =>
        rw [hr] at ih
        simpa [intercalateChar] using ih
    · simp only [if_neg hac]
      cases hr : splitOnChar c as with
      | nil => exact absurd hr (splitOnChar_ne_nil c as)
      | cons h t =>
        rw [hr] at ih
        cases t with
        | nil => simpa [intercalateChar] using ih
        | cons q rest => simpa [intercalateChar] using ih

theorem splitOnChar_headD (c : Char) (l : List Char) :
    (splitOnChar c l).headD [] = l.takeWhile (· ≠ c) := by
  induction l with
  | nil => rfl
  | cons a as ih =>
    unfold splitOnChar
    by_cases hac : a = c
    · subst hac
      simp [List.takeWhile_cons]
    · simp only [if_neg hac]
      cases hr : splitOnChar c as with
      | nil => exact absurd hr (splitOnChar_ne_nil c as)
      | cons h t =>
        rw [hr] at ih
        simp only [List.headD_cons] at ih
        simp [List.takeWhile_cons, hac, ih]

theorem intercalateChar_splitOnChar_tail (c : Char) (l : List Char) (hm : c ∈ l) :
    intercalateChar c (splitOnChar c l).tail = (l.dropWhile (· ≠ c)).tail := by
  induction l with
  | nil => cases hm
  | cons a as ih =>
    unfold splitOnChar
    by_cases hac : a = c
    · subst hac
      simpa [List.dropWhile_cons] using intercalateChar_splitOnChar a as
    · have hm' : c ∈ as := by
        cases hm with
        | head => exact absurd rfl hac
        | tail _ h => exact h
      simp only [if_neg hac]
      cases hr : splitOnChar c as with
      | nil => exact absurd hr (splitOnChar_ne_nil c as)
      | cons h t =>
        rw [hr] at ih
        simpa [List.dropWhile_cons, hac] using ih hm'

theorem splitOnChar_length_ge_two (c : Char) (l : List Char) (hm : c ∈ l) :
    2 ≤ (splitOnChar c l).length := by
  induction l with
  | nil => cases hm
  | cons a as ih =>
    unfold splitOnChar
    by_cases hac : a = c
    · subst hac
      have := splitOnChar_ne_nil a as
      cases hr : splitOnChar a as with
      | nil => exact absurd hr this
      | cons h t => simp
    · have hm' : c ∈ as := by
        cases hm with
        | head => exact absurd rfl hac
        | tail _ h => exact h
      simp only [if_neg hac]
      cases hr : splitOnChar c as with
      | nil => exact absurd hr (splitOnChar_ne_nil c as)
      | cons h t =>
        rw [hr] at ih
        simpa using ih hm'

theorem splitOnChar_not_mem (c : Char) (l : List Char) (hm : c ∉ l) :
    splitOnChar c l = [l] := by
  induction l with
  | nil => rfl
  | cons a as ih =>
    have hac : a ≠ c := fun h => hm (h ▸ List.mem_cons_self a as)
    have hm' : c ∉ as := fun h => hm (List.mem_cons_of_mem a h)
    unfold splitOnChar
    simp [hac, ih hm']

/-! ## Entry-grammar lemmas -/

theorem entryFinish_error (k v : List Char) (e : PyErr)
    (h : entryFinish k v = .error e) : e = .assertionError := by
  unfold entryFinish at h
  by_cases h1 : isSubstr "ref ".toList k
  · rw [if_pos h1] at h
    by_cases h2 : k.count '$' ≠ 1
    · rw [if_pos h2] at h
      injection h with h3
      exact h3.symm
    · rw [if_neg h2] at h
      simp [mkEntry] at h
  · rw [if_neg h1] at h
    simp [mkEntry] at h

theorem entryKV_error (k v : List Char) (e : PyErr)
    (h : entryKV k v = .error e) : e = .indexError ∨ e = .assertionError := by
  unfold entryKV at h
  cases hv : v.getLast? with
  | none =>
    rw [hv] at h
    injection h with h2
    exact .inl h2.symm
  | some last =>
    rw [hv] at h
    exact .inr (entryFinish_error _ _ _ h)

theorem entry_from_text_error (t : List Char) (e : PyErr)
    (h : entry_from_text t = .error e) : e = .indexError ∨ e = .assertionError := by
  unfold entry_from_text at h
  cases hs : pyStrip t with
  | nil =>
    rw [hs] at h
    injection h with h2
    exact .inl h2.symm
  | cons c rest =>
    rw [hs] at h
    dsimp only at h
    by_cases hc : c = '*'
    · rw [if_pos hc] at h
      simp [mkEntry] at h
    · rw [if_neg hc] at h
      by_cases hcount : t.count '=' < 1
      · rw [if_pos hcount] at h
        injection h with h2
        exact .inr h2.symm
      · rw [if_neg hcount] at h
        exact entryKV_error _ _ _ h

theorem entry_from_text_comment (t rest : List Char) (hs : pyStrip t = '*' :: rest) :
    entry_from_text t = .ok ⟨.comment, none, .single rest⟩ := by
  unfold entry_from_text
  rw [hs]
  simp [mkEntry]

/-! ## Claims about the entry grammar -/

/-- C4 (confirmed): on a non-comment, non-blank logical line containing
at least one `=`, `entry_from_text` behaves as: split at the first `=`
only — the raw key is the text before it, the raw value is everything
after it with further `=` characters kept as data — trim both, and drop
the raw value's last character exactly when it is the terminator `;`
(`entryKV` is the stage of the source that receives the trimmed raw key
and raw value and performs the terminator drop). -/
theorem claim_C4 (t : List Char) (hne : pyStrip t ≠ [])
    (hc : (pyStrip t).head? ≠ some '*') (hm : '=' ∈ t) :
    entry_from_text t =
      entryKV (pyStrip (t.takeWhile (· ≠ '=')))
              (pyStrip ((t.dropWhile (· ≠ '=')).tail)) := by
  unfold entry_from_text
  cases hs : pyStrip t with
  | nil => exact absurd hs hne
  | cons c rest =>
    rw [hs] at hc
    have hcs : c ≠ '*' := by simpa using hc
    dsimp only
    rw [if_neg hcs]
    have hcount : ¬ t.count '=' < 1 :=
      Nat.not_lt.mpr (List.count_pos_iff.mpr hm)
    rw [if_neg hcount]
    show entryKV (pyStrip ((splitOnChar '=' t).headD []))
          (pyStrip (intercalateChar '=' (splitOnChar '=' t).tail)) = _
    rw [splitOnChar_headD, intercalateChar_splitOnChar_tail '=' t hm]

/-- Witness for C4 at the concrete line `k = a=b;` (note the second `=`
is kept inside the value). -/
theorem claim_C4_witness :
    pyStrip "k = a=b;".toList ≠ [] ∧
    (pyStrip "k = a=b;".toList).head? ≠ some '*' ∧
    '=' ∈ "k = a=b;".toList ∧
    entry_from_text "k = a=b;".toList =
      entryKV (pyStrip ("k = a=b;".toList.takeWhile (· ≠ '=')))
              (pyStrip (("k = a=b;".toList.dropWhile (· ≠ '=')).tail)) :=
  ⟨by decide, by decide, by decide, claim_C4 _ (by decide) (by decide) (by decide)⟩

/-- Shape demanded of every parsed non-comment value by C5: a single
string never contains the delimiter, and a list value has at least two
elements (never a one-element list). -/
def valueShape : EntryValue → Prop
  | .single s => ':' ∉ s
  | .list l => 2 ≤ l.length

theorem entryFinish_ok_value (k v : List Char) (e : Entry)
    (h : entryFinish k v = .ok e) : e.value = mkVal v := by
  unfold entryFinish at h
  by_cases h1 : isSubstr "ref ".toList k
  · rw [if_pos h1] at h
    by_cases h2 : k.count '$' ≠ 1
    · rw [if_pos h2] at h
      cases h
    · rw [if_neg h2] at h
      simp [mkEntry] at h
      rw [← h]
  · rw [if_neg h1] at h
    simp [mkEntry] at h
    rw [← h]

theorem mkVal_shape (v : List Char) : valueShape (mkVal v) := by
  unfold mkVal
  by_cases h : ':' ∈ v
  · rw [if_pos h]
    exact splitOnChar_length_ge_two ':' v h
  · rw [if_neg h]
    exact h

/-- C5 (confirmed): the value text `a:b:c` parses to the three-element
list `[a, b, c]` while `abc` parses to the single string `abc`; and in
general every non-comment entry produced by `entry_from_text` stores
either a single string with no `:` in it or a list of at least two
elements — never a one-element list. -/
theorem claim_C5 :
    (∀ t e, entry_from_text t = .ok e → e.type ≠ .comment → valueShape e.value) ∧
    entry_from_text "k = a:b:c;".toList =
      .ok ⟨.parameter, some "k".toList, .list ["a".toList, "b".toList, "c".toList]⟩ ∧
    entry_from_text "k = abc;".toList =
      .ok ⟨.parameter, some "k".toList, .single "abc".toList⟩ := by
  refine ⟨?_, by decide, by decide⟩
  intro t e h htype
  unfold entry_from_text at h
  cases hs : pyStrip t with
  | nil => rw [hs] at h; cases h
  | cons c rest =>
    rw [hs] at h
    dsimp only at h
    by_cases hc : c = '*'
    · rw [if_pos hc] at h
      simp [mkEntry] at h
      rw [← h] at htype
      exact absurd rfl htype
    · rw [if_neg hc] at h
      by_cases hcount : t.count '=' < 1
      · rw [if_pos hcount] at h
        cases h
      · rw [if_neg hcount] at h
        unfold entryKV at h
        cases hv : (pyStrip (intercalateChar '=' (splitOnChar '=' t).tail)).getLast? with
        | none => rw [hv] at h; cases h
        | some last =>
          rw [hv] at h
          rw [entryFinish_ok_value _ _ _ h]
          exact mkVal_shape _

/-- Witness for C5 applied at the concrete line `k = a:b:c;`. -/
theorem claim_C5_witness :
    valueShape (EntryValue.list ["a".toList, "b".toList, "c".toList]) :=
  claim_C5.1 "k = a:b:c;".toList
    ⟨.parameter, some "k".toList, .list ["a".toList, "b".toList, "c".toList]⟩
    (by decide) (by decide)

/-! ## Claim C6: the kind/key invariant of `Entry` -/

/-- C6 counterexample: a parameter `Entry` whose key is Python `None` is
constructible — `Entry.__init__` validates the key only for comment
entries, so the claimed "key is `None` **iff** kind is Comment" fails in
the right-to-left direction at this concrete input. -/
theorem claim_C6_counterexample :
    mkEntry .parameter none (.single "v".toList) =
      .ok ⟨.parameter, none, .single "v".toList⟩ := by decide

/-- C6 (corrected): constructing a comment `Entry` with a non-`None` key
fails with the key setter's `ValueError`, and every constructible comment
`Entry` has key `None`; but the converse direction of the claimed
invariant does not hold — a non-comment `Entry` with key `None` is
accepted (see the counterexample). -/
theorem claim_C6 :
    (∀ k v, mkEntry .comment (some k) v = .error (.valueError msgKeyComment)) ∧
    (∀ t k v e, mkEntry t k v = .ok e → e.type = .comment → e.key = none) := by
  constructor
  · intro k v
    rfl
  · intro t k v e h htype
    cases t with
    | comment =>
      cases k with
      | none => simp [mkEntry] at h; rw [← h]
      | some _ => cases h
    | parameter =>
      cases k with
      | none => simp [mkEntry] at h; rw [← h]
      | some k' =>
        simp [mkEntry] at h
        rw [← h] at htype
        cases htype
    | «variable» =>
      cases k with
      | none => simp [mkEntry] at h; rw [← h]
      | some k' =>
        simp [mkEntry] at h
        rw [← h] at htype
        cases htype

/-- Witness for C6 at a concrete comment entry. -/
theorem claim_C6_witness :
    (Entry.mk .comment none (.single "x".toList)).key = none :=
  claim_C6.2 .comment none (.single "x".toList)
    ⟨.comment, none, .single "x".toList⟩ (by decide) (by decide)

/-! ## Claim C2: duplicate-key insertion behaviour of the containers -/

/-- C2 counterexample: in a `Section`, inserting a second entry under the
already-present key `k` does not create a two-element sequence keeping
the original first — `Section.add_definition` is a plain dictionary
assignment, so the stored child is just the second entry and the first
one is gone. -/
theorem claim_C2_counterexample :
    (Section.add_definition_entry
      (Section.add_definition_entry ⟨"S".toList, [], 0⟩
        ⟨.parameter, some "k".toList, .single "1".toList⟩)
      ⟨.parameter, some "k".toList, .single "2".toList⟩).children =
    [(some "k".toList, .entry ⟨.parameter, some "k".toList, .single "2".toList⟩)] := by
  decide

/-- C2 (corrected): the single-to-pair promotion and list append hold for
`Definition` (and `Scan`, which inherits `add_entry`): a second insertion
under a stored single entry yields the two-element list with the original
first, and an insertion under a stored list appends.  `Section` and the
top-level `Vex` document instead replace the previously stored child
under that key. -/
theorem claim_C2 :
    (∀ (d : Definition) (e e0 : Entry), e.type ≠ .comment →
      alGet d.entries e.key = some (.one e0) →
      alGet (d.add_entry e).entries e.key = some (.many [e0, e])) ∧
    (∀ (d : Definition) (e : Entry) (l : List Entry), e.type ≠ .comment →
      alGet d.entries e.key = some (.many l) →
      alGet (d.add_entry e).entries e.key = some (.many (l ++ [e]))) ∧
    (∀ (s : Section) (d : Definition),
      alGet (s.add_definition_def d).children (some d.name) = some (.defn d)) ∧
    (∀ (v : Vex) (s : Section),
      alGet (v.add_section_sec s).sections (some s.name) = some (.sec s)) := by
  refine ⟨?_, ?_, ?_, ?_⟩
  · intro d e e0 htype hget
    unfold Definition.add_entry
    rw [if_neg htype, hget]
    exact alGet_alSet_self _ _ _
  · intro d e l htype hget
    unfold Definition.add_entry
    rw [if_neg htype, hget]
    exact alGet_alSet_self _ _ _
  · intro s d
    exact alGet_alSet_self _ _ _
  · intro v s
    exact alGet_alSet_self _ _ _

/-- Witness for C2: the promotion clause applied at a concrete
`Definition` holding one entry under `k`. -/
theorem claim_C2_witness :
    alGet ((Definition.mk "d".toList
        [(some "k".toList, .one ⟨.parameter, some "k".toList, .single "1".toList⟩)]
        0 false).add_entry
        ⟨.parameter, some "k".toList, .single "2".toList⟩).entries
      (some "k".toList) =
    some (.many [⟨.parameter, some "k".toList, .single "1".toList⟩,
                 ⟨.parameter, some "k".toList, .single "2".toList⟩]) :=
  claim_C2.1 _ _ _ (by decide) (by decide)

/-! ## Claim C7: first-insertion key order -/

/-- C7 (confirmed): in every container — `Definition` (and `Scan`, which
inherits `add_entry`), `Section` and the top-level `Vex` document — every
insertion leaves the key sequence unchanged when the target key is
already present (the in-place promotion/append of `Definition` and the
in-place replacement of `Section`/`Vex` do not move the key) and appends
the key at the end when it is new, so iterated keys are exactly the
distinct keys in first-insertion order; and each serializer emits the
children by walking the stored dictionary in exactly that order. -/
theorem claim_C7 :
    (∀ (d : Definition) (e : Entry), e.type ≠ .comment →
      (d.add_entry e).keys =
        if (alGet d.entries e.key).isSome then d.keys else d.keys ++ [e.key]) ∧
    (∀ (d : Definition) (e : Entry), e.type = .comment →
      (d.add_entry e).keys =
        if (alGet d.entries (some (commentKey (d.nComments + 1)))).isSome
        then d.keys else d.keys ++ [some (commentKey (d.nComments + 1))]) ∧
    (∀ (s : Section) (d : Definition),
      (s.add_definition_def d).keys =
        if (alGet s.children (some d.name)).isSome
        then s.keys else s.keys ++ [some d.name]) ∧
    (∀ (s : Section) (e : Entry), e.type ≠ .comment →
      (s.add_definition_entry e).keys =
        if (alGet s.children e.key).isSome then s.keys else s.keys ++ [e.key]) ∧
    (∀ (s : Section) (e : Entry), e.type = .comment →
      (s.add_definition_entry e).keys =
        if (alGet s.children (some (commentKey (s.nComments + 1)))).isSome
        then s.keys else s.keys ++ [some (commentKey (s.nComments + 1))]) ∧
    (∀ (v : Vex) (s : Section),
      (v.add_section_sec s).keys =
        if (alGet v.sections (some s.name)).isSome
        then v.keys else v.keys ++ [some s.name]) ∧
    (∀ (v : Vex) (e : Entry), e.type ≠ .comment →
      (v.add_section_entry e).keys =
        if (alGet v.sections e.key).isSome then v.keys else v.keys ++ [e.key]) ∧
    (∀ (v : Vex) (e : Entry), e.type = .comment →
      (v.add_section_entry e).keys =
        if (alGet v.sections (some (commentKey (v.nComments + 1)))).isSome
        then v.keys else v.keys ++ [some (commentKey (v.nComments + 1))]) ∧
    (∀ d : Definition, d.toStr =
      (if d.isScan then "scan " else "def ").toList ++ d.name ++ ";\n".toList
        ++ (d.entries.map (fun kv => renderDefVal kv.2)).flatten
        ++ (if d.isScan then "endscan;\n" else "enddef;\n").toList) ∧
    (∀ s : Section, s.toStr =
      '$' :: s.name ++ ";\n".toList
        ++ (s.children.map (fun kv =>
              match kv.2 with
              | .defn d => d.toStr
              | .entry e => e.toStr none)).flatten) ∧
    (∀ v : Vex, v.toStr =
      (v.sections.map (fun kv =>
        match kv.2 with
        | .entry e => e.toStr (some 0)
        | .sec s => s.toStr)).flatten) := by
  refine ⟨?_, ?_, ?_, ?_, ?_, ?_, ?_, ?_, fun _ => rfl, fun _ => rfl, fun _ => rfl⟩
  · intro d e htype
    unfold Definition.add_entry
    rw [if_neg htype]
    cases hget : alGet d.entries e.key with
    | none =>
      show (alSet d.entries e.key (.one e)).map Prod.fst = _
      rw [keys_alSet, hget]
      rfl
    | some val =>
      cases val with
      | one e0 =>
        show (alSet d.entries e.key (.many [e0, e])).map Prod.fst = _
        rw [keys_alSet, hget]
        rfl
      | many l =>
        show (alSet d.entries e.key (.many (l ++ [e]))).map Prod.fst = _
        rw [keys_alSet, hget]
        rfl
  · intro d e htype
    unfold Definition.add_entry
    rw [if_pos htype]
    show (alSet d.entries (some (commentKey (d.nComments + 1))) (.one e)).map Prod.fst = _
    rw [keys_alSet]
    rfl
  · intro s d
    unfold Section.add_definition_def
    show (alSet s.children (some d.name) (.defn d)).map Prod.fst = _
    rw [keys_alSet]
    rfl
  · intro s e htype
    unfold Section.add_definition_entry
    rw [if_neg htype]
    show (alSet s.children e.key (.entry e)).map Prod.fst = _
    rw [keys_alSet]
    rfl
  · intro s e htype
    unfold Section.add_definition_entry
    rw [if_pos htype]
    show (alSet s.children (some (commentKey (s.nComments + 1))) (.entry e)).map Prod.fst = _
    rw [keys_alSet]
    rfl
  · intro v s
    unfold Vex.add_section_sec
    show (alSet v.sections (some s.name) (.sec s)).map Prod.fst = _
    rw [keys_alSet]
    rfl
  · intro v e htype
    unfold Vex.add_section_entry
    rw [if_neg htype]
    show (alSet v.sections e.key (.entry e)).map Prod.fst = _
    rw [keys_alSet]
    rfl
  · intro v e htype
    unfold Vex.add_section_entry
    rw [if_pos htype]
    show (alSet v.sections (some (commentKey (v.nComments + 1))) (.entry e)).map Prod.fst = _
    rw [keys_alSet]
    rfl

/-- Witness for C7: in a `Definition` a fresh key is appended after the
existing one, and in a `Vex` document a replacing insertion under an
existing key leaves the key sequence unchanged. -/
theorem claim_C7_witness :
    ((Definition.mk "d".toList
        [(some "k".toList, .one ⟨.parameter, some "k".toList, .single "1".toList⟩)]
        0 false).add_entry
        ⟨.parameter, some "j".toList, .single "2".toList⟩).keys =
      [some "k".toList, some "j".toList] ∧
    ((Vex.mk [] [(some "S".toList, .sec ⟨"S".toList, [], 0⟩)] 0).add_section_sec
        ⟨"S".toList, [], 1⟩).keys = [some "S".toList] := by
  constructor
  · have h := claim_C7.1
      (Definition.mk "d".toList
        [(some "k".toList, .one ⟨.parameter, some "k".toList, .single "1".toList⟩)]
        0 false)
      ⟨.parameter, some "j".toList, .single "2".toList⟩ (by decide)
    rw [h]
    decide
  · have h := claim_C7.2.2.2.2.2.1
      (Vex.mk [] [(some "S".toList, .sec ⟨"S".toList, [], 0⟩)] 0)
      ⟨"S".toList, [], 1⟩
    rw [h]
    decide

/-! ## Claim C3: comment lines versus the continuation buffer -/

/-- C3 counterexample: three raw lines where a comment arrives while the
continuation buffer holds `a = b\n`.  The final document shows the
comment routed first, and then an entry `a` whose value `b\nx = y` starts
with the buffered fragment `b` — the pending buffer was *not* discarded,
so the claim that it "contributes to no subsequent logical line or entry"
is false at this input. -/
theorem claim_C3_counterexample :
    parseLines ["a = b\n".toList, "* c\n".toList, "x = y;\n".toList] =
      .ok ⟨[],
        [(some "comment-1".toList, .entry ⟨.comment, none, .single " c".toList⟩),
         (some "a".toList,
          .entry ⟨.parameter, some "a".toList, .single "b\nx = y".toList⟩)],
        1⟩ := by
  decide

/-- C3 (corrected): a comment-marked physical line is emitted and routed
immediately, but the pending continuation buffer is left intact — routing
never touches `prev` — and the buffer's content is prepended to the next
logical line completed after the comment. -/
theorem claim_C3 :
    (∀ (st : PState) (line rest : List Char), pyStrip line = '*' :: rest →
      stepLine st line = .ok (routeEntry st ⟨.comment, none, .single rest⟩)) ∧
    (∀ (st : PState) (e : Entry), (routeEntry st e).prev = st.prev) ∧
    (∀ (st : PState) (b line : List Char), st.prev = some b →
      (pyStrip line).head? ≠ some '*' → pyStrip line ≠ [] → ';' ∈ line →
      stepLine st line = dispatch { st with prev := none } (pyStrip (b ++ line))) := by
  refine ⟨?_, ?_, ?_⟩
  · intro st line rest hs
    unfold stepLine
    rw [hs]
    dsimp only
    rw [if_pos rfl, entry_from_text_comment line rest hs]
  · intro st e
    obtain ⟨p, cs, cd, dc⟩ := st
    unfold routeEntry
    cases cd <;> cases cs <;> rfl
  · intro st b line hprev hhead hne hsemi
    unfold stepLine
    cases hs : pyStrip line with
    | nil => exact absurd hs hne
    | cons c rest =>
      rw [hs] at hhead
      have hcs : c ≠ '*' := by simpa using hhead
      dsimp only
      rw [if_neg hcs, if_pos hsemi, hprev]
      rfl

/-- Witness for C3: the comment clause applied with a pending buffer. -/
theorem claim_C3_witness :
    stepLine ⟨some "a = b\n".toList, none, none, ⟨[], [], 0⟩⟩ "* c\n".toList =
      .ok (routeEntry ⟨some "a = b\n".toList, none, none, ⟨[], [], 0⟩⟩
            ⟨.comment, none, .single " c".toList⟩) :=
  claim_C3.1 _ "* c\n".toList " c".toList (by decide)

/-! ## Claim C9: `Vex.to_file` without overwrite permission -/

/-- C9 (code bug): with `overwrite=False`, `to_file` always raises
`NameError` — the guard reads the unbound name `newfile` instead of the
`filename` parameter — so the promised `FileExistsError` is never raised,
whether or not the destination exists (and a non-existing destination
wrongly fails too).  No bytes are written either way. -/
theorem claim_C9 :
    (∀ (pathExists : Bool) (v : Vex), to_file pathExists v false = .error .nameError) ∧
    PyErr.nameError ≠ PyErr.fileExistsError :=
  ⟨fun _ _ => rfl, by decide⟩

/-! ## Claim C10: blank physical lines -/

theorem stepAll_cons (st : PState) (a : List Char) (as : List (List Char)) :
    stepAll st (a :: as) = (stepLine st a).bind (fun st' => stepAll st' as) := by
  cases h : stepLine st a <;>
    simp only [stepAll, List.foldlM_cons, h] <;> rfl

theorem stepAll_blank (ls : List (List Char)) :
    ∀ st : PState, (∃ l ∈ ls, pyStrip l = []) → ∃ e, stepAll st ls = .error e := by
  induction ls with
  | nil => rintro st ⟨l, hl, _⟩; cases hl
  | cons a as ih =>
    rintro st ⟨l, hl, hblank⟩
    cases hstep : stepLine st a with
    | error e => exact ⟨e, by rw [stepAll_cons, hstep]; rfl⟩
    | ok st' =>
      rcases List.mem_cons.mp hl with rfl | hl'
      · rw [show stepLine st l = .error .indexError by unfold stepLine; rw [hblank]] at hstep
        cases hstep
      · obtain ⟨e, he⟩ := ih st' ⟨l, hl', hblank⟩
        exact ⟨e, by rw [stepAll_cons, hstep]; exact he⟩

/-- C10 (confirmed): the parser indexes `currentline.strip()[0]` before
anything else, so any blank or whitespace-only physical line raises
`IndexError` when reached, in every parser state; consequently no input
containing a blank line parses successfully — the whole parse returns an
error. -/
theorem claim_C10 :
    (∀ (st : PState) (l : List Char), pyStrip l = [] →
      stepLine st l = .error .indexError) ∧
    (∀ ls : List (List Char), (∃ l ∈ ls, pyStrip l = []) →
      ∃ e, parseLines ls = .error e) := by
  constructor
  · intro st l h
    unfold stepLine
    rw [h]
  · intro ls h
    obtain ⟨e, he⟩ := stepAll_blank ls initState h
    exact ⟨e, by unfold parseLines; rw [he]; rfl⟩

/-- Witness for C10 on the one-line input consisting of a bare newline. -/
theorem claim_C10_witness :
    ∃ e, parseLines ["\n".toList] = .error e :=
  claim_C10.2 ["\n".toList] ⟨"\n".toList, by decide, by decide⟩

/-! ## Claim C8: nesting errors -/

/-- A completed logical line that the dispatcher treats as `def <name>;`:
not a section line, and starting with the four characters `def `. -/
def clIsDef (cl : List Char) : Prop :=
  cl.head? ≠ some '$' ∧ cl.take 4 = "def ".toList

/-- A completed logical line the dispatcher treats as `enddef`. -/
def clIsEnddef (cl : List Char) : Prop :=
  cl.head? ≠ some '$' ∧ cl.take 4 ≠ "def ".toList ∧ cl.take 6 = "enddef".toList

/-- A completed logical line the dispatcher treats as `scan <name>;`. -/
def clIsScan (cl : List Char) : Prop :=
  cl.head? ≠ some '$' ∧ cl.take 4 ≠ "def ".toList ∧ cl.take 6 ≠ "enddef".toList ∧
    cl.take 5 = "scan ".toList

/-- A completed logical line the dispatcher treats as `endscan`. -/
def clIsEndscan (cl : List Char) : Prop :=
  cl.head? ≠ some '$' ∧ cl.take 4 ≠ "def ".toList ∧ cl.take 6 ≠ "enddef".toList ∧
    cl.take 5 ≠ "scan ".toList ∧ cl.take 7 = "endscan".toList

/-- The result is one of the three nesting `ValueError`s of the source
(the spec's NestingError): `def`/`scan` inside an open block, or
`enddef`/`endscan` with no open block. -/
def resNesting : Except PyErr PState → Prop
  | .error (.valueError m) => m = msgNestDef ∨ m = msgEnddef ∨ m = msgEndscan
  | _ => False

/-- The nesting-error condition on a completed logical line, given the
`current_definition` register: an opener while a block is open, or a
closer while no block is open. -/
def dispCond (cd : Option Definition) (cl : List Char) : Prop :=
  (clIsDef cl ∧ cd ≠ none) ∨ (clIsEnddef cl ∧ cd = none) ∨
    (clIsScan cl ∧ cd ≠ none) ∨ (clIsEndscan cl ∧ cd = none)

/-- The nesting-error condition on a raw physical line: non-blank,
not a comment, carrying the terminator `;` (so a logical line completes),
and the merged stripped logical line satisfies `dispCond`. -/
def nestingCond (st : PState) (line : List Char) : Prop :=
  match pyStrip line with
  | [] => False
  | c :: _ =>
    c ≠ '*' ∧ ';' ∈ line ∧ dispCond st.curDef (pyStrip (st.prev.getD [] ++ line))

theorem resNesting_dispatch (st : PState) (cl : List Char) :
    resNesting (dispatch st cl) ↔ dispCond st.curDef cl := by
  cases cl with
  | nil =>
    simp [dispatch, resNesting, dispCond, clIsDef, clIsEnddef, clIsScan, clIsEndscan, -List.take_succ_cons]
  | cons c rest =>
    by_cases hc : c = '$'
    · subst hc
      simp [dispatch, resNesting, dispCond, clIsDef, clIsEnddef, clIsScan, clIsEndscan, -List.take_succ_cons]
    · have hch : (c :: rest).head? ≠ some '$' := by simpa using hc
      by_cases h4 : (c :: rest).take 4 = ['d', 'e', 'f', ' ']
      · cases hd : st.curDef with
        | some d =>
          simp [dispatch, hc, h4, hd, resNesting, dispCond,
                clIsDef, clIsEnddef, clIsScan, clIsEndscan, -List.take_succ_cons]
        | none =>
          simp [dispatch, hc, h4, hd, resNesting, dispCond,
                clIsDef, clIsEnddef, clIsScan, clIsEndscan, -List.take_succ_cons]
      · by_cases h6 : (c :: rest).take 6 = ['e', 'n', 'd', 'd', 'e', 'f']
        · cases hd : st.curDef with
          | none =>
            simp [dispatch, hc, h4, h6, hd, resNesting, dispCond,
                  clIsDef, clIsEnddef, clIsScan, clIsEndscan, -List.take_succ_cons]
          | some d =>
            cases hs : st.curSec with
            | none =>
              simp [dispatch, hc, h4, h6, hd, hs, resNesting, dispCond,
                    clIsDef, clIsEnddef, clIsScan, clIsEndscan, -List.take_succ_cons]
            | some s =>
              simp [dispatch, hc, h4, h6, hd, hs, resNesting, dispCond,
                    clIsDef, clIsEnddef, clIsScan, clIsEndscan, -List.take_succ_cons]
        · by_cases h5 : (c :: rest).take 5 = ['s', 'c', 'a', 'n', ' ']
          · cases hd : st.curDef with
            | some d =>
              simp [dispatch, hc, h4, h6, h5, hd, resNesting, dispCond,
                    clIsDef, clIsEnddef, clIsScan, clIsEndscan, -List.take_succ_cons]
            | none =>
              simp [dispatch, hc, h4, h6, h5, hd, resNesting, dispCond,
                    clIsDef, clIsEnddef, clIsScan, clIsEndscan, -List.take_succ_cons]
          · by_cases h7 : (c :: rest).take 7 = ['e', 'n', 'd', 's', 'c', 'a', 'n']
            · cases hd : st.curDef with
              | none =>
                simp [dispatch, hc, h4, h6, h5, h7, hd, resNesting, dispCond,
                      clIsDef, clIsEnddef, clIsScan, clIsEndscan, -List.take_succ_cons]
              | some d =>
                cases hs : st.curSec with
                | none =>
                  simp [dispatch, hc, h4, h6, h5, h7, hd, hs, resNesting, dispCond,
                        clIsDef, clIsEnddef, clIsScan, clIsEndscan, -List.take_succ_cons]
                | some s =>
                  simp [dispatch, hc, h4, h6, h5, h7, hd, hs, resNesting, dispCond,
                        clIsDef, clIsEnddef, clIsScan, clIsEndscan, -List.take_succ_cons]
            · cases he : entry_from_text (c :: rest) with
              | ok e =>
                simp [dispatch, hc, h4, h6, h5, h7, he, resNesting, dispCond,
                      clIsDef, clIsEnddef, clIsScan, clIsEndscan, -List.take_succ_cons]
              | error e =>
                rcases entry_from_text_error _ _ he with rfl | rfl <;>
                  simp [dispatch, hc, h4, h6, h5, h7, he, resNesting, dispCond,
                        clIsDef, clIsEnddef, clIsScan, clIsEndscan, -List.take_succ_cons]

/-- C8 (confirmed): a step of the parser loop yields one of the nesting
`ValueError`s exactly when the physical line completes a logical line
(non-blank, not a comment, contains `;`) whose stripped merged text is a
`def `/`scan ` opener while a block is already open, or an
`enddef`/`endscan` closer while no block is open; and any erroring step
makes the whole remaining parse return that same error at once — there is
no recovery. -/
theorem claim_C8 :
    (∀ (st : PState) (line : List Char),
      resNesting (stepLine st line) ↔ nestingCond st line) ∧
    (∀ (st : PState) (l : List Char) (rest : List (List Char)) (e : PyErr),
      stepLine st l = .error e → stepAll st (l :: rest) = .error e) := by
  constructor
  · intro st line
    unfold stepLine nestingCond
    cases hs : pyStrip line with
    | nil => simp [resNesting]
    | cons c rest =>
      by_cases hc : c = '*'
      · subst hc
        simp only [if_pos rfl]
        cases he : entry_from_text line with
        | ok e => simp [resNesting]
        | error e =>
          rcases entry_from_text_error _ _ he with rfl | rfl <;> simp [resNesting]
      · by_cases hsemi : ';' ∈ line
        · simp only [if_neg hc, if_pos hsemi]
          rw [resNesting_dispatch]
          simp [hc, hsemi, dispCond]
        · simp [if_neg hc, if_neg hsemi, resNesting, hsemi]
  · intro st l rest e h
    rw [stepAll_cons, h]
    rfl

/-- Witness for C8: an `enddef;` with no open block errors, and that
error aborts the whole remaining parse. -/
theorem claim_C8_witness :
    stepAll initState ["enddef;\n".toList, "x = y;\n".toList] =
      .error (.valueError msgEnddef) :=
  claim_C8.2 initState "enddef;\n".toList ["x = y;\n".toList]
    (.valueError msgEnddef) (by decide)

/-! ## Claim C1: parse/serialize round-trip -/

/-- The five physical lines of a small valid VEX text: a section, two
comments, and a definition whose name `comment-1` collides with the
synthetic key of the section's first comment. -/
def c1lines : List (List Char) :=
  ["$S;\n".toList, "*a\n".toList, "*b\n".toList,
   "def comment-1;\n".toList, "enddef;\n".toList]

/-- The document the parser builds from `c1lines`: the sealed definition
replaced the first comment under the shared key `comment-1`, and the
second comment sits under `comment-2`. -/
def c1doc : Vex :=
  ⟨[], [(some "S".toList, .sec ⟨"S".toList,
      [(some "comment-1".toList, .defn ⟨"comment-1".toList, [], 0, false⟩),
       (some "comment-2".toList, .entry ⟨.comment, none, .single "b".toList⟩)], 2⟩)], 0⟩

/-- The document obtained by re-parsing the serialization of `c1doc`:
the re-parsed comment is counted from 1 again, lands on the key
`comment-1`, and replaces the definition — one child instead of two. -/
def c1docRT : Vex :=
  ⟨[], [(some "S".toList, .sec ⟨"S".toList,
      [(some "comment-1".toList, .entry ⟨.comment, none, .single "b".toList⟩)], 1⟩)], 0⟩

/-- C1 (code bug): the round-trip property fails on the valid input
`c1lines` — parsing it yields `c1doc`, but parsing the serialization of
`c1doc` yields `c1docRT`, which has different container keys and kinds
(the definition named `comment-1` and one of the two comments are lost
because the synthetic comment keys regenerated during re-parsing collide
with the definition's name).  Serialization silently loses information,
contradicting the stated purpose of writing a file with the same
information. -/
theorem claim_C1 :
    parseLines c1lines = .ok c1doc ∧
    parseLines (readLines c1doc.toStr) = .ok c1docRT ∧
    c1docRT ≠ c1doc :=
  ⟨by decide, by decide, by decide⟩

end VexPy
